import Mathlib

/-!
# Verification of the Personal Library Manager core

Shallow embedding of the core of `src/library_manager.py`:
the book record, the store operations (`insert_book`, `delete_book`, the
inline read-status toggle), the query engine (`find_books`), the
persistence adapter (`persist_library_data` / `fetch_library_data`,
modelled at the JSON-value level) and the statistics engine
(`compute_library_metrics`).

Python dictionaries preserve insertion order; we model them as
association lists grown at the right end.  Python `sorted` is a stable
sort; we model it with `List.mergeSort`, which is a stable merge sort.
Python `//` is floor division, modelled with `Int.fdiv`.  Python's
substring test `needle in haystack` is modelled as `List.IsInfix` on the
underlying character lists (the empty string is a substring of every
string, as in Python).
-/

namespace LibraryManager

/-- A book record, mirroring the dictionary built in `insert_book`:
keys `title`, `author`, `publication_year`, `genre`, `read_status`,
`added_date`. -/
structure Book where
  title : String
  author : String
  publication_year : Int
  genre : String
  read_status : Bool
  added_date : String
deriving DecidableEq, Repr

/-- `s.lower()` on the character-list view of a Python string. -/
def lowerChars (s : String) : List Char := s.data.map Char.toLower

/-- Python's `needle in haystack` on strings: substring containment
(`"" in s` is `True`). -/
def pyIn (needle haystack : List Char) : Bool :=
  decide (needle <:+: haystack)

/-- `find_books(search_query, search_field)` from the source, as a pure
function of the collection.  The query is lowercased once; a book
matches when the field selected by `search_field` contains the query:
for `"Title"` and `"Author"` the field is lowercased first, for
`"Genre"` the genre string is used as stored (`str(book['genre'])`,
not lowercased).  Matches are collected in collection order. -/
def find_books (search_query : String) (search_field : String)
    (collection : List Book) : List Book :=
  let q := lowerChars search_query
  collection.filter fun book =>
    if search_field = "Title" then pyIn q (lowerChars book.title)
    else if search_field = "Author" then pyIn q (lowerChars book.author)
    else if search_field = "Genre" then pyIn q book.genre.data
    else false

/-- `insert_book` from the source: builds the new record and appends it
to the collection.  The `datetime.now()` timestamp is passed in as
`now`. -/
def insert_book (book_title book_author : String) (pub_year : Int)
    (book_genre : String) (is_read : Bool) (now : String)
    (collection : List Book) : List Book :=
  collection ++ [⟨book_title, book_author, pub_year, book_genre, is_read, now⟩]

/-- `delete_book(book_index)` from the source: when
`0 <= book_index < len(collection)` delete the record at that index and
return the new collection (the Python function returns `True`), else
return `none` leaving the collection untouched (Python returns
`False`). -/
def delete_book (book_index : Int) (collection : List Book) :
    Option (List Book) :=
  if 0 ≤ book_index ∧ book_index < (collection.length : Int) then
    some (collection.eraseIdx book_index.toNat)
  else none

/-- The inline read-status toggle from the library view:
`st.session_state.book_collection[i]['read_status'] = new_status`.
Python list indexing accepts negative indices (`-len ≤ i < 0` refers to
position `len + i`) and raises `IndexError` outside `[-len, len)`. -/
def toggle_read_status (i : Int) (new_status : Bool)
    (collection : List Book) : Option (List Book) :=
  let n : Int := collection.length
  let j : Int := if i < 0 then n + i else i
  if 0 ≤ j ∧ j < n then
    match collection.get? j.toNat with
    | some b => some (collection.set j.toNat { b with read_status := new_status })
    | none => none
  else none

/-- `d[k] = d.get(k, 0) + 1` on an insertion-ordered Python dict,
modelled as an association list: bump the count of `k` in place if `k`
is already a key, else append `(k, 1)` at the end. -/
def bumpKey {K : Type} [DecidableEq K] (k : K) :
    List (K × Nat) → List (K × Nat)
  | [] => [(k, 1)]
  | (k', c) :: rest =>
      if k' = k then (k', c + 1) :: rest else (k', c) :: bumpKey k rest

/-- Build the counting dict for one key-extraction function, in
collection order (the single pass of `compute_library_metrics`). -/
def countDict {K : Type} [DecidableEq K] (key : Book → K)
    (collection : List Book) : List (K × Nat) :=
  collection.foldl (fun d b => bumpKey (key b) d) []

/-- Python's decade computation `(book['publication_year'] // 10) * 10`;
`//` is floor division. -/
def decadeOf (y : Int) : Int := y.fdiv 10 * 10

/-- `sorted(d.items(), key=lambda x: x[1], reverse=True)`: stable sort
by descending count. -/
def sortByCountDesc {K : Type} (d : List (K × Nat)) : List (K × Nat) :=
  d.mergeSort fun a b => b.2 ≤ a.2

/-- `sorted(d.items(), key=lambda x: x[0])`: stable sort ascending by
decade key. -/
def sortByKeyAsc (d : List (Int × Nat)) : List (Int × Nat) :=
  d.mergeSort fun a b => a.1 ≤ b.1

/-- The result record of `compute_library_metrics`. -/
structure Metrics where
  total_books : Nat
  read_books : Nat
  percent_read : ℚ
  genres : List (String × Nat)
  authors : List (String × Nat)
  decades : List (Int × Nat)
deriving Repr

/-- `compute_library_metrics` from the source: basic counts, the
percentage (`0` when the collection is empty, Python float division
modelled as exact rational division), and the three distributions with
their presentation sort. -/
def compute_library_metrics (collection : List Book) : Metrics :=
  let book_count := collection.length
  let completed_books := (collection.filter fun b => b.read_status).length
  let completion_rate : ℚ :=
    if book_count > 0 then (completed_books : ℚ) / (book_count : ℚ) * 100 else 0
  { total_books := book_count
    read_books := completed_books
    percent_read := completion_rate
    genres := sortByCountDesc (countDict Book.genre collection)
    authors := sortByCountDesc (countDict Book.author collection)
    decades := sortByKeyAsc (countDict (fun b => decadeOf b.publication_year) collection) }

/-! ## Persistence adapter

`persist_library_data` writes `json.dump(book_collection)` and
`fetch_library_data` reads it back with `json.load`.  We model the file
content at the JSON-value level: `json.dump` followed by `json.load` is
the identity on JSON-representable values, so the round trip reduces to
encoding the collection as a JSON value and decoding it again. -/

/-- JSON values as written and read by `json.dump` / `json.load`. -/
inductive Json where
  | str (s : String)
  | int (n : Int)
  | bool (b : Bool)
  | arr (elems : List Json)
  | obj (fields : List (String × Json))
deriving Repr

/-- Key lookup in a JSON object, first match wins. -/
def jLookup (k : String) : List (String × Json) → Option Json
  | [] => none
  | (k', v) :: rest => if k' = k then some v else jLookup k rest

/-- Serialize one book record as `json.dump` serializes the dict built
by `insert_book` (keys in insertion order). -/
def bookToJson (b : Book) : Json :=
  .obj [("title", .str b.title), ("author", .str b.author),
        ("publication_year", .int b.publication_year),
        ("genre", .str b.genre), ("read_status", .bool b.read_status),
        ("added_date", .str b.added_date)]

/-- Read one book record back from a JSON object. -/
def jsonToBook (j : Json) : Option Book :=
  match j with
  | .obj fields =>
    match jLookup "title" fields, jLookup "author" fields,
          jLookup "publication_year" fields, jLookup "genre" fields,
          jLookup "read_status" fields, jLookup "added_date" fields with
    | some (.str t), some (.str a), some (.int y), some (.str g),
      some (.bool r), some (.str d) => some ⟨t, a, y, g, r, d⟩
    | _, _, _, _, _, _ => none
  | _ => none

/-- `persist_library_data`: the JSON value written to `library.json`
(a JSON array of book objects). -/
def save (records : List Book) : Json := .arr (records.map bookToJson)

/-- `fetch_library_data`, reading side: decode a JSON value back into a
collection; fails on any non-conforming value. -/
def load (j : Json) : Option (List Book) :=
  match j with
  | .arr elems => elems.mapM jsonToBook
  | _ => none

/-- The state of the backing file `library.json` when
`fetch_library_data` runs: absent, present with malformed content
(`json.load` raises), or present with a well-formed collection. -/
inductive FileState where
  | missing
  | malformed
  | valid (data : List Book)

/-- Outcome of `fetch_library_data`: the boolean it returns, the
session collection afterwards, and whether `st.error` was shown. -/
structure FetchResult where
  ok : Bool
  collection : List Book
  errorShown : Bool
deriving Repr

/-- `fetch_library_data` from the source: if `library.json` exists its
content replaces the session collection and `True` is returned; if it
does not exist the collection is left as initialized and `False` is
returned with no error; if reading raises, `st.error` is shown, the
collection is left unchanged and `False` is returned. -/
def fetch_library_data (fs : FileState) (prior : List Book) : FetchResult :=
  match fs with
  | .missing => ⟨false, prior, false⟩
  | .malformed => ⟨false, prior, true⟩
  | .valid data => ⟨true, data, false⟩

/-- First-match lookup of a count in an association list, defaulting to
`0`: the reading counterpart of `d.get(k, 0)`. -/
def lookupCount {K : Type} [DecidableEq K] (k : K) : List (K × Nat) → Nat
  | [] => 0
  | (k', c) :: rest => if k' = k then c else lookupCount k rest

/-- The number of records of the collection whose `key` equals `k`. -/
def countKey {K : Type} [DecidableEq K] (key : Book → K) (k : K)
    (collection : List Book) : Nat :=
  (collection.filter fun b => decide (key b = k)).length

/-- The distinct values of `key` over the collection, in order of first
encounter — the key order of an insertion-ordered Python dict. -/
def encounterKeys {K : Type} [DecidableEq K] (key : Book → K)
    (collection : List Book) : List K :=
  collection.foldl (fun acc b => if key b ∈ acc then acc else acc ++ [key b]) []

/-- The "Dune" record of the spec's statistics scenario. -/
def duneBook : Book :=
  ⟨"Dune", "Herbert", 1965, "Sci-Fi", true, "2024-01-01 10:00:00"⟩

/-- The "Hobbit" record of the spec's statistics scenario. -/
def hobbitBook : Book :=
  ⟨"Hobbit", "Tolkien", 1937, "Fantasy", false, "2024-01-01 10:00:00"⟩

/-! ## Theorems -/

/-- C9: when `library.json` is missing, loading leaves the
startup-initialized collection empty and shows no error; when it is
present but malformed, an error is surfaced (`st.error`) and the load
reports failure, leaving the collection as it was. -/
theorem fetch_missing_empty_malformed_error :
    (fetch_library_data .missing []).collection = []
      ∧ (fetch_library_data .missing []).errorShown = false
      ∧ ∀ prior : List Book,
          (fetch_library_data .malformed prior).errorShown = true
            ∧ (fetch_library_data .malformed prior).ok = false
            ∧ (fetch_library_data .malformed prior).collection = prior :=
  ⟨rfl, rfl, fun _ => ⟨rfl, rfl, rfl⟩⟩

/-- Decoding inverts encoding on a single record. -/
theorem jsonToBook_bookToJson (b : Book) : jsonToBook (bookToJson b) = some b := rfl

/-- Decoding inverts encoding on a list of records. -/
theorem load_save_eq (records : List Book) : load (save records) = some records := by
  simp only [load, save]
  induction records with
  | nil => rfl
  | cons b rest ih =>
      simp only [List.map_cons, List.mapM_cons, jsonToBook_bookToJson, ih,
        Option.bind_eq_bind, Option.some_bind]
      rfl

/-- C3: for every non-empty collection, loading after saving yields the
original collection, preserving order and every field value. -/
theorem load_save_roundtrip (records : List Book) (_h : records ≠ []) :
    load (save records) = some records :=
  load_save_eq records

/-- Witness for C3 at the spec's two-record scenario collection. -/
theorem load_save_roundtrip_witness :
    load (save [duneBook, hobbitBook]) = some [duneBook, hobbitBook] :=
  load_save_roundtrip [duneBook, hobbitBook] (by decide)

/-- C6: `insert_book` appends the new record at the end (it is found at
index `length` of the new collection), and `delete_book` at that index
restores the prior collection exactly. -/
theorem insert_then_delete_last (collection : List Book)
    (t a : String) (y : Int) (g : String) (r : Bool) (now : String) :
    (insert_book t a y g r now collection).get? collection.length =
        some ⟨t, a, y, g, r, now⟩
      ∧ delete_book (collection.length : Int)
          (insert_book t a y g r now collection) = some collection := by
  constructor
  · simp [insert_book]
  · have hlen : (insert_book t a y g r now collection).length =
        collection.length + 1 := by simp [insert_book]
    simp only [delete_book, hlen]
    rw [if_pos ⟨by positivity, by push_cast; omega⟩]
    simp [insert_book, List.eraseIdx_append_of_length_le (Nat.le_refl _)]

/-- C4 counterexample: on a one-record collection, searching the Title
field with the empty term returns the record, not the empty list — the
empty string is a substring of every string, so an empty term matches
everything. -/
theorem find_books_empty_term_counterexample :
    ¬ find_books "" "Title" [duneBook] = [] := by decide

/-- C4 amended: for each of the three search fields, an empty term
matches every record, so the search returns the entire collection in
order (the UI triggers the search only on non-empty input). -/
theorem find_books_empty_term (collection : List Book) :
    find_books "" "Title" collection = collection
      ∧ find_books "" "Author" collection = collection
      ∧ find_books "" "Genre" collection = collection := by
  refine ⟨?_, ?_, ?_⟩ <;>
    · apply List.filter_eq_self.mpr
      intro b _
      simp [lowerChars, pyIn]

/-- C5: `percent_read` equals `read_books / total_books * 100` when the
collection is non-empty, equals `0` when it is empty, and always lies
in `[0, 100]`. -/
theorem percent_read_correct (collection : List Book) :
    (compute_library_metrics collection).percent_read =
        (if (compute_library_metrics collection).total_books = 0 then 0
         else ((compute_library_metrics collection).read_books : ℚ)
            / ((compute_library_metrics collection).total_books : ℚ) * 100)
      ∧ 0 ≤ (compute_library_metrics collection).percent_read
      ∧ (compute_library_metrics collection).percent_read ≤ 100 := by
  have hle : (collection.filter fun b => b.read_status).length ≤
      collection.length := List.length_filter_le _ _
  simp only [compute_library_metrics]
  rcases Nat.eq_zero_or_pos collection.length with h0 | hpos
  · simp [h0]
  · have hne : ¬ collection.length = 0 := Nat.pos_iff_ne_zero.mp hpos
    simp only [gt_iff_lt, hpos, if_true, hne, if_false]
    refine ⟨trivial, by positivity, ?_⟩
    rw [div_mul_eq_mul_div, div_le_iff₀ (by exact_mod_cast hpos)]
    calc ((collection.filter fun b => b.read_status).length : ℚ) * 100
        ≤ (collection.length : ℚ) * 100 := by
          apply mul_le_mul_of_nonneg_right _ (by norm_num)
          exact_mod_cast hle
      _ = 100 * (collection.length : ℚ) := by ring

/-- C2 counterexample: toggling the read status at index `-1` of a
one-record collection succeeds (Python negative indexing refers to the
last record) instead of failing as the claim requires for every
negative index. -/
theorem index_bounds_counterexample :
    ¬ ((toggle_read_status (-1) true [duneBook]).isSome ↔
        0 ≤ (-1 : Int) ∧ (-1 : Int) < (([duneBook] : List Book).length : Int)) := by
  decide

/-- C2 amended: `delete_book` succeeds exactly when
`0 ≤ index < length` and fails (returning `False`, collection
untouched) otherwise; the read-status toggle uses Python list indexing,
so it succeeds exactly when `-length ≤ index < length` (negative
indices count from the end) and raises `IndexError` (collection
untouched) otherwise. -/
theorem index_bounds (collection : List Book) (i : Int) (v : Bool) :
    ((delete_book i collection).isSome ↔
        0 ≤ i ∧ i < (collection.length : Int))
      ∧ (delete_book i collection = none ↔
        ¬ (0 ≤ i ∧ i < (collection.length : Int)))
      ∧ ((toggle_read_status i v collection).isSome ↔
        -(collection.length : Int) ≤ i ∧ i < (collection.length : Int))
      ∧ (toggle_read_status i v collection = none ↔
        ¬ (-(collection.length : Int) ≤ i ∧ i < (collection.length : Int))) := by
  have hdel : (delete_book i collection).isSome ↔
      0 ≤ i ∧ i < (collection.length : Int) := by
    simp only [delete_book]
    by_cases h : 0 ≤ i ∧ i < (collection.length : Int) <;> simp [h]
  have htog : (toggle_read_status i v collection).isSome ↔
      -(collection.length : Int) ≤ i ∧ i < (collection.length : Int) := by
    simp only [toggle_read_status]
    by_cases hcond : 0 ≤ (if i < 0 then (collection.length : Int) + i else i) ∧
        (if i < 0 then (collection.length : Int) + i else i) <
          (collection.length : Int)
    · rw [if_pos hcond]
      have hget : collection.get?
          (if i < 0 then (collection.length : Int) + i else i).toNat ≠ none := by
        rw [ne_eq, List.get?_eq_none]
        by_cases hi : i < 0 <;> simp [hi] at hcond ⊢ <;> omega
      rcases hb : collection.get?
          (if i < 0 then (collection.length : Int) + i else i).toNat with _ | b
      · exact absurd hb hget
      · simp only [hb, Option.isSome_some, true_iff]
        by_cases hi : i < 0 <;> simp [hi] at hcond ⊢ <;> omega
    · rw [if_neg hcond]
      simp only [Option.isSome_none, Bool.false_eq_true, false_iff]
      by_cases hi : i < 0 <;> simp [hi] at hcond ⊢ <;> omega
  refine ⟨hdel, ?_, htog, ?_⟩
  · rw [← hdel]
    rcases delete_book i collection with _ | l <;> simp
  · rw [← htog]
    rcases toggle_read_status i v collection with _ | l <;> simp

/-- C1 counterexample: searching the Genre field for `"Fantasy"` on a
collection whose one record has genre `"Fantasy"` returns nothing: the
query is lowercased to `"fantasy"` but the stored genre is not
lowercased, so the search is not the case-insensitive filter the claim
describes. -/
theorem find_books_case_counterexample :
    ¬ find_books "Fantasy" "Genre" [hobbitBook] =
        ([hobbitBook] : List Book).filter
          (fun b => pyIn (lowerChars "Fantasy") (lowerChars b.genre)) := by
  decide

/-- C1 amended: the search is a stable filter of the collection — for
the Title and Author fields it keeps exactly the records whose field
contains the term case-insensitively, but for the Genre field it keeps
exactly the records whose stored genre contains the lowercased term,
case-sensitively on the genre side; any other field name yields the
empty result.  Being a filter, every returned record matches, no
matching record is dropped, and the original relative order is
preserved (the result is a sublist of the collection). -/
theorem find_books_characterization (q : String) (collection : List Book) :
    find_books q "Title" collection =
        collection.filter (fun b => pyIn (lowerChars q) (lowerChars b.title))
      ∧ find_books q "Author" collection =
        collection.filter (fun b => pyIn (lowerChars q) (lowerChars b.author))
      ∧ find_books q "Genre" collection =
        collection.filter (fun b => pyIn (lowerChars q) b.genre.data)
      ∧ (∀ field : String,
          List.Sublist (find_books q field collection) collection) := by
  refine ⟨?_, ?_, ?_, fun field => List.filter_sublist collection⟩ <;>
    · apply List.filter_congr
      intro b _
      simp

/-! ### Association-list dictionary lemmas -/

/-- Bumping key `k'` changes the stored count of `k` exactly when
`k' = k`, and then by one. -/
theorem lookupCount_bumpKey {K : Type} [DecidableEq K] (k k' : K)
    (d : List (K × Nat)) :
    lookupCount k (bumpKey k' d) =
      if k' = k then lookupCount k d + 1 else lookupCount k d := by
  induction d with
  | nil => by_cases h : k' = k <;> simp [bumpKey, lookupCount, h]
  | cons kv rest ih =>
      obtain ⟨k'', c⟩ := kv
      simp only [bumpKey]
      by_cases h1 : k'' = k'
      · subst h1
        by_cases h2 : k'' = k <;> simp [lookupCount, h2]
      · rw [if_neg h1]
        by_cases h2 : k'' = k
        · subst h2
          have hk : ¬ k' = k'' := fun h => h1 h.symm
          simp [lookupCount, hk]
        · simp [lookupCount, h2, ih]

/-- Bumping `k` leaves the key list unchanged when `k` is already a
key, and otherwise appends `k` at the end. -/
theorem keys_bumpKey {K : Type} [DecidableEq K] (k : K) (d : List (K × Nat)) :
    (bumpKey k d).map Prod.fst =
      if k ∈ d.map Prod.fst then d.map Prod.fst
      else d.map Prod.fst ++ [k] := by
  induction d with
  | nil => simp [bumpKey]
  | cons kv rest ih =>
      obtain ⟨k', c⟩ := kv
      by_cases h : k' = k
      · subst h; simp [bumpKey]
      · have hne : ¬ k = k' := fun hh => h hh.symm
        by_cases hm : k ∈ rest.map Prod.fst <;>
          simp [bumpKey, h, ih, hne, hm]

/-- Bumping any key increases the total of the stored counts by one. -/
theorem sum_bumpKey {K : Type} [DecidableEq K] (k : K) (d : List (K × Nat)) :
    ((bumpKey k d).map Prod.snd).sum = (d.map Prod.snd).sum + 1 := by
  induction d with
  | nil => simp [bumpKey]
  | cons kv rest ih =>
      obtain ⟨k', c⟩ := kv
      by_cases h : k' = k <;> simp [bumpKey, h, ih] <;> omega

/-- Folding the counting step over the collection adds, for each key,
the number of records with that key. -/
theorem lookupCount_foldl {K : Type} [DecidableEq K] (key : Book → K) (k : K) :
    ∀ (l : List Book) (d : List (K × Nat)),
      lookupCount k (l.foldl (fun d b => bumpKey (key b) d) d) =
        lookupCount k d + countKey key k l
  | [], d => by simp [countKey]
  | b :: l, d => by
      rw [List.foldl_cons, lookupCount_foldl key k l, lookupCount_bumpKey]
      by_cases h : key b = k <;> simp [countKey, List.filter_cons, h] <;> omega

/-- The key list of the counting fold is the first-encounter fold of
the keys. -/
theorem keys_foldl {K : Type} [DecidableEq K] (key : Book → K) :
    ∀ (l : List Book) (d : List (K × Nat)),
      (l.foldl (fun d b => bumpKey (key b) d) d).map Prod.fst =
        l.foldl (fun acc b => if key b ∈ acc then acc else acc ++ [key b])
          (d.map Prod.fst)
  | [], _ => rfl
  | b :: l, d => by
      rw [List.foldl_cons, List.foldl_cons, keys_foldl key l, keys_bumpKey]

/-- The counting fold adds the length of the collection to the total of
the stored counts. -/
theorem sum_foldl {K : Type} [DecidableEq K] (key : Book → K) :
    ∀ (l : List Book) (d : List (K × Nat)),
      ((l.foldl (fun d b => bumpKey (key b) d) d).map Prod.snd).sum =
        (d.map Prod.snd).sum + l.length
  | [], d => by simp
  | b :: l, d => by
      rw [List.foldl_cons, sum_foldl key l, sum_bumpKey]
      simp only [List.length_cons]
      omega

/-- Looking a key up in the counting dict gives the number of records
with that key. -/
theorem lookupCount_countDict {K : Type} [DecidableEq K] (key : Book → K)
    (k : K) (collection : List Book) :
    lookupCount k (countDict key collection) = countKey key k collection := by
  have h := lookupCount_foldl key k collection []
  simpa [countDict, lookupCount] using h

/-- The keys of the counting dict are the distinct key values in order
of first encounter. -/
theorem keys_countDict {K : Type} [DecidableEq K] (key : Book → K)
    (collection : List Book) :
    (countDict key collection).map Prod.fst = encounterKeys key collection := by
  have h := keys_foldl key collection []
  simpa [countDict, encounterKeys] using h

/-- The stored counts of the counting dict sum to the size of the
collection. -/
theorem sum_countDict {K : Type} [DecidableEq K] (key : Book → K)
    (collection : List Book) :
    ((countDict key collection).map Prod.snd).sum = collection.length := by
  have h := sum_foldl key collection []
  simpa [countDict] using h

/-- The first-encounter fold never repeats a key. -/
theorem nodup_encounterFold {K : Type} [DecidableEq K] (key : Book → K) :
    ∀ (l : List Book) (acc : List K), acc.Nodup →
      (l.foldl (fun acc b => if key b ∈ acc then acc else acc ++ [key b])
        acc).Nodup
  | [], _, h => h
  | b :: l, acc, h => by
      rw [List.foldl_cons]
      by_cases hm : key b ∈ acc
      · rw [if_pos hm]
        exact nodup_encounterFold key l acc h
      · rw [if_neg hm]
        refine nodup_encounterFold key l _ ?_
        simp [List.nodup_append, h, hm]

/-- The keys of the counting dict never repeat. -/
theorem nodup_keys_countDict {K : Type} [DecidableEq K] (key : Book → K)
    (collection : List Book) :
    ((countDict key collection).map Prod.fst).Nodup := by
  rw [keys_countDict]
  exact nodup_encounterFold key collection [] List.nodup_nil

/-- A key appears in the first-encounter fold exactly when it was in
the accumulator or some record carries it. -/
theorem mem_encounterFold {K : Type} [DecidableEq K] (key : Book → K) :
    ∀ (l : List Book) (acc : List K) (k : K),
      (k ∈ l.foldl
          (fun acc b => if key b ∈ acc then acc else acc ++ [key b]) acc ↔
        k ∈ acc ∨ ∃ b ∈ l, key b = k)
  | [], acc, k => by simp
  | b :: l, acc, k => by
      rw [List.foldl_cons, mem_encounterFold key l]
      by_cases hm : key b ∈ acc
      · rw [if_pos hm]
        constructor
        · rintro (h | h)
          · exact Or.inl h
          · exact Or.inr (by
              obtain ⟨b', hb', hk⟩ := h
              exact ⟨b', List.mem_cons_of_mem b hb', hk⟩)
        · rintro (h | ⟨b', hb', hk⟩)
          · exact Or.inl h
          · rcases List.mem_cons.mp hb' with rfl | hb''
            · exact Or.inl (hk ▸ hm)
            · exact Or.inr ⟨b', hb'', hk⟩
      · rw [if_neg hm]
        simp only [List.mem_append]
        constructor
        · rintro ((h | h) | ⟨b', hb', hk⟩)
          · exact Or.inl h
          · have hkb : k = key b := by simpa using h
            exact Or.inr ⟨b, List.mem_cons_self b l, hkb.symm⟩
          · exact Or.inr ⟨b', List.mem_cons_of_mem b hb', hk⟩
        · rintro (h | ⟨b', hb', hk⟩)
          · exact Or.inl (Or.inl h)
          · rcases List.mem_cons.mp hb' with rfl | hb''
            · exact Or.inl (Or.inr (List.mem_singleton.mpr hk.symm))
            · exact Or.inr ⟨b', hb'', hk⟩

/-- A key was encountered exactly when its record count is positive. -/
theorem mem_encounterKeys_iff {K : Type} [DecidableEq K] (key : Book → K)
    (collection : List Book) (k : K) :
    k ∈ encounterKeys key collection ↔ 0 < countKey key k collection := by
  have h := mem_encounterFold key collection [] k
  simp only [List.not_mem_nil, false_or] at h
  rw [encounterKeys] at *
  rw [h, countKey, List.length_pos]
  simp only [ne_eq, List.filter_eq_nil_iff, not_forall]
  constructor
  · rintro ⟨b, hb, hk⟩
    exact ⟨b, hb, by simp [hk]⟩
  · rintro ⟨b, hb, hk⟩
    refine ⟨b, hb, by simpa using hk⟩

/-- Membership in an association list with distinct keys is determined
by key membership and lookup. -/
theorem mem_assoc_iff {K : Type} [DecidableEq K] :
    ∀ (d : List (K × Nat)), (d.map Prod.fst).Nodup →
      ∀ (k : K) (c : Nat),
        ((k, c) ∈ d ↔ k ∈ d.map Prod.fst ∧ lookupCount k d = c)
  | [], _, k, c => by simp
  | (k', c') :: rest, h, k, c => by
      simp only [List.map_cons, List.nodup_cons] at h
      obtain ⟨hk', hrest⟩ := h
      by_cases hkk : k' = k
      · subst hkk
        constructor
        · intro hmem
          rcases List.mem_cons.mp hmem with heq | hmem'
          · injection heq with h1 h2
            refine ⟨by simp, ?_⟩
            simp [lookupCount, h2]
          · exact absurd (List.mem_map_of_mem Prod.fst hmem') hk'
        · rintro ⟨-, hl⟩
          have hcc : c' = c := by simpa [lookupCount] using hl
          subst hcc
          exact List.mem_cons_self _ _
      · constructor
        · intro hmem
          rcases List.mem_cons.mp hmem with heq | hmem'
          · injection heq with h1 h2
            exact absurd h1.symm hkk
          · obtain ⟨hmk, hl⟩ := (mem_assoc_iff rest hrest k c).mp hmem'
            refine ⟨List.mem_cons_of_mem _ hmk, ?_⟩
            simpa [lookupCount, hkk] using hl
        · rintro ⟨hmk, hl⟩
          simp only [List.map_cons] at hmk
          rcases List.mem_cons.mp hmk with heq | hmk'
          · exact absurd heq.symm hkk
          · have hl' : lookupCount k rest = c := by
              simpa [lookupCount, hkk] using hl
            exact List.mem_cons_of_mem _
              ((mem_assoc_iff rest hrest k c).mpr ⟨hmk', hl'⟩)

/-! ### Sorting lemmas -/

/-- Stability of `mergeSort`: filtering by a predicate whose holders
are mutually `le`-related commutes with sorting, so the sort keeps
`le`-ties in their original relative order. -/
theorem mergeSort_filter_stable {α : Type} (le : α → α → Bool)
    (htrans : ∀ a b c, le a b → le b c → le a c)
    (htotal : ∀ a b, le a b || le b a)
    (l : List α) (p : α → Bool) (h : ∀ a b, p a → p b → le a b) :
    (l.mergeSort le).filter p = l.filter p := by
  have hpw : (l.filter p).Pairwise (fun a b => le a b = true) :=
    List.pairwise_of_forall_mem_list fun a ha b hb =>
      h a b (List.mem_filter.mp ha).2 (List.mem_filter.mp hb).2
  have hsub : List.Sublist (l.filter p) (l.mergeSort le) :=
    List.sublist_mergeSort htrans htotal hpw (List.filter_sublist l)
  have h2 : List.Sublist (l.filter p) ((l.mergeSort le).filter p) := by
    have h3 := hsub.filter p
    simpa using h3
  have hlen : ((l.mergeSort le).filter p).length = (l.filter p).length :=
    ((List.mergeSort_perm l le).filter p).length_eq
  exact (h2.eq_of_length hlen.symm).symm

/-- The descending-count presentation sort of a counting dict: counts
are non-increasing, each entry pairs a key with its positive record
count, and entries with equal counts keep the dict's (first-encounter)
order. -/
theorem sortByCountDesc_spec {K : Type} [DecidableEq K] (key : Book → K)
    (collection : List Book) :
    (sortByCountDesc (countDict key collection)).Pairwise
        (fun a b => b.2 ≤ a.2)
      ∧ (∀ (k : K) (c : Nat),
          ((k, c) ∈ sortByCountDesc (countDict key collection) ↔
            0 < countKey key k collection ∧ c = countKey key k collection))
      ∧ ∀ n : Nat,
          (sortByCountDesc (countDict key collection)).filter
              (fun e => e.2 == n) =
            (countDict key collection).filter (fun e => e.2 == n) := by
  have htrans : ∀ a b c : K × Nat, decide (b.2 ≤ a.2) → decide (c.2 ≤ b.2) →
      decide (c.2 ≤ a.2) := by
    intro a b c hab hbc
    simp only [decide_eq_true_eq] at hab hbc ⊢
    omega
  have htotal : ∀ a b : K × Nat,
      decide (b.2 ≤ a.2) || decide (a.2 ≤ b.2) := by
    intro a b
    simp only [Bool.or_eq_true, decide_eq_true_eq]
    exact Nat.le_total b.2 a.2
  refine ⟨?_, ?_, ?_⟩
  · exact (List.sorted_mergeSort htrans htotal _).imp fun h => by simpa using h
  · intro k c
    rw [sortByCountDesc, (List.mergeSort_perm _ _).mem_iff,
      mem_assoc_iff _ (nodup_keys_countDict key collection) k c,
      keys_countDict, mem_encounterKeys_iff, lookupCount_countDict]
    constructor
    · rintro ⟨hpos, heq⟩
      exact ⟨hpos, heq.symm⟩
    · rintro ⟨hpos, heq⟩
      exact ⟨hpos, heq.symm⟩
  · intro n
    exact mergeSort_filter_stable _ htrans htotal _ _ fun a b ha hb => by
      simp only [beq_iff_eq] at ha hb
      simp only [decide_eq_true_eq]
      omega

/-- The ascending-key presentation sort of an `Int`-keyed counting
dict: keys are strictly increasing, and each entry pairs a key with its
positive record count. -/
theorem sortByKeyAsc_spec (key : Book → Int) (collection : List Book) :
    (sortByKeyAsc (countDict key collection)).Pairwise
        (fun a b => a.1 < b.1)
      ∧ ∀ (k : Int) (c : Nat),
          ((k, c) ∈ sortByKeyAsc (countDict key collection) ↔
            0 < countKey key k collection ∧ c = countKey key k collection) := by
  have htrans : ∀ a b c : Int × Nat, decide (a.1 ≤ b.1) → decide (b.1 ≤ c.1) →
      decide (a.1 ≤ c.1) := by
    intro a b c hab hbc
    simp only [decide_eq_true_eq] at hab hbc ⊢
    omega
  have htotal : ∀ a b : Int × Nat,
      decide (a.1 ≤ b.1) || decide (b.1 ≤ a.1) := by
    intro a b
    simp only [Bool.or_eq_true, decide_eq_true_eq]
    exact Int.le_total a.1 b.1
  constructor
  · have hle : (sortByKeyAsc (countDict key collection)).Pairwise
        (fun a b => a.1 ≤ b.1) :=
      (List.sorted_mergeSort htrans htotal _).imp fun h => by simpa using h
    have hnd : ((sortByKeyAsc (countDict key collection)).map
        Prod.fst).Nodup := by
      rw [sortByKeyAsc]
      exact ((List.mergeSort_perm _ _).map Prod.fst).nodup_iff.mpr
        (nodup_keys_countDict key collection)
    have hne : (sortByKeyAsc (countDict key collection)).Pairwise
        (fun a b => a.1 ≠ b.1) := (List.pairwise_map).mp hnd
    exact (hle.and hne).imp fun h => lt_of_le_of_ne h.1 h.2
  · intro k c
    rw [sortByKeyAsc, (List.mergeSort_perm _ _).mem_iff,
      mem_assoc_iff _ (nodup_keys_countDict key collection) k c,
      keys_countDict, mem_encounterKeys_iff, lookupCount_countDict]
    constructor
    · rintro ⟨hpos, heq⟩
      exact ⟨hpos, heq.symm⟩
    · rintro ⟨hpos, heq⟩
      exact ⟨hpos, heq.symm⟩

/-- Sorting by descending count does not change the total count. -/
theorem sum_sortByCountDesc {K : Type} [DecidableEq K] (key : Book → K)
    (collection : List Book) :
    ((sortByCountDesc (countDict key collection)).map Prod.snd).sum =
      collection.length := by
  rw [sortByCountDesc, ((List.mergeSort_perm _ _).map Prod.snd).sum_eq]
  exact sum_countDict key collection

/-- Sorting by ascending key does not change the total count. -/
theorem sum_sortByKeyAsc (key : Book → Int) (collection : List Book) :
    ((sortByKeyAsc (countDict key collection)).map Prod.snd).sum =
      collection.length := by
  rw [sortByKeyAsc, ((List.mergeSort_perm _ _).map Prod.snd).sum_eq]
  exact sum_countDict key collection

/-- C7: the decade key is `floor(year / 10) * 10`; the `decades`
statistic pairs each decade key with the number of records whose
publication year falls in that decade, exactly the decades that occur
appear, and the entries are ordered strictly ascending by decade
key. -/
theorem decade_counts_correct (collection : List Book) :
    (∀ y : Int, decadeOf y = ⌊(y : ℚ) / 10⌋ * 10)
      ∧ (compute_library_metrics collection).decades.Pairwise
          (fun a b => a.1 < b.1)
      ∧ ∀ (k : Int) (c : Nat),
          ((k, c) ∈ (compute_library_metrics collection).decades ↔
            0 < countKey (fun b => decadeOf b.publication_year) k collection
              ∧ c = countKey (fun b => decadeOf b.publication_year) k
                  collection) := by
  obtain ⟨h1, h2⟩ :=
    sortByKeyAsc_spec (fun b => decadeOf b.publication_year) collection
  refine ⟨?_, h1, h2⟩
  intro y
  rw [decadeOf, Int.fdiv_eq_ediv _ (by norm_num)]
  have h10 : ((10 : ℕ) : ℚ) = (10 : ℚ) := by norm_num
  rw [← h10, Rat.floor_intCast_div_natCast y 10]
  norm_num

/-- C8: the `genres` and `authors` statistics pair each genre
(respectively author) with its positive record count; entries are
ordered by non-increasing count; entries with equal counts keep the
order of the underlying dict, whose keys are in first-encounter order
of the collection. -/
theorem genre_author_counts_correct (collection : List Book) :
    (compute_library_metrics collection).genres.Pairwise
        (fun a b => b.2 ≤ a.2)
      ∧ (∀ (k : String) (c : Nat),
          ((k, c) ∈ (compute_library_metrics collection).genres ↔
            0 < countKey Book.genre k collection
              ∧ c = countKey Book.genre k collection))
      ∧ (∀ n : Nat, (compute_library_metrics collection).genres.filter
            (fun e => e.2 == n) =
          (countDict Book.genre collection).filter (fun e => e.2 == n))
      ∧ (countDict Book.genre collection).map Prod.fst =
          encounterKeys Book.genre collection
      ∧ (compute_library_metrics collection).authors.Pairwise
          (fun a b => b.2 ≤ a.2)
      ∧ (∀ (k : String) (c : Nat),
          ((k, c) ∈ (compute_library_metrics collection).authors ↔
            0 < countKey Book.author k collection
              ∧ c = countKey Book.author k collection))
      ∧ (∀ n : Nat, (compute_library_metrics collection).authors.filter
            (fun e => e.2 == n) =
          (countDict Book.author collection).filter (fun e => e.2 == n))
      ∧ (countDict Book.author collection).map Prod.fst =
          encounterKeys Book.author collection := by
  obtain ⟨g1, g2, g3⟩ := sortByCountDesc_spec Book.genre collection
  obtain ⟨a1, a2, a3⟩ := sortByCountDesc_spec Book.author collection
  exact ⟨g1, g2, g3, keys_countDict Book.genre collection,
    a1, a2, a3, keys_countDict Book.author collection⟩

/-- C10: the counts of each of the three distributions sum to
`total_books`, and `read_books` never exceeds `total_books`. -/
theorem metrics_counting_invariants (collection : List Book) :
    ((compute_library_metrics collection).genres.map Prod.snd).sum =
        (compute_library_metrics collection).total_books
      ∧ ((compute_library_metrics collection).authors.map Prod.snd).sum =
        (compute_library_metrics collection).total_books
      ∧ ((compute_library_metrics collection).decades.map Prod.snd).sum =
        (compute_library_metrics collection).total_books
      ∧ (compute_library_metrics collection).read_books ≤
        (compute_library_metrics collection).total_books :=
  ⟨sum_sortByCountDesc Book.genre collection,
    sum_sortByCountDesc Book.author collection,
    sum_sortByKeyAsc (fun b => decadeOf b.publication_year) collection,
    List.length_filter_le _ _⟩

end LibraryManager
